import Mathlib

/-!
Verification of the DamEdit viewport / search core (src/main.py).

Strings are modelled as `List Char`; Python integers as `Int` (or `Nat`
for list indices); Python `%` on a positive modulus coincides with
`Int.emod`, and `//` with `Int.fdiv`.  Python `str.lower` is modelled
per character.
-/

set_option maxHeartbeats 1600000

namespace DamEdit

/-- Python str.lower, modelled per character (main.py applies `.lower()`
to lines and search terms). -/
def lowerStr (s : List Char) : List Char := s.map Char.toLower

/-- Viewport fields `top` and `sel` of `EditorState` (main.py lines 109-110);
`sel` is the cursor offset within the window. -/
structure Viewport where
  top : Int
  sel : Int
  deriving Repr, DecidableEq

/-- `EditorState.clamp`, main.py lines 126-144.  `total` is `len(self.lines)`
and `window_h` is `self.window_h`; the four guarded assignments run in
sequence, then the selected index is checked against the total. -/
def clamp (total window_h : Int) (v : Viewport) : Viewport :=
  if window_h ≤ 0 then v else
  let max_top := max 0 (total - window_h)
  let t1 := if v.top < 0 then 0 else v.top
  let t2 := if t1 > max_top then max_top else t1
  let s1 := if v.sel < 0 then 0 else v.sel
  let s2 := if s1 ≥ window_h then window_h - 1 else s1
  if t2 + s2 ≥ total then
    if total = 0 then ⟨0, 0⟩
    else
      let last := total - 1
      let nt := max 0 (last - (window_h - 1))
      ⟨nt, last - nt⟩
  else ⟨t2, s2⟩

/-- KEY_UP / `k` handler, main.py lines 384-387. -/
def move_up (v : Viewport) : Viewport :=
  if v.sel > 0 then ⟨v.top, v.sel - 1⟩
  else if v.top > 0 then ⟨v.top - 1, v.sel⟩
  else v

/-- KEY_DOWN / `j` handler, main.py lines 388-392. -/
def move_down (total window_h : Int) (v : Viewport) : Viewport :=
  if v.top + v.sel + 1 < total then
    if v.sel + 1 < window_h then ⟨v.top, v.sel + 1⟩
    else ⟨v.top + 1, v.sel⟩
  else v

/-- Python substring test `t in s`: some slice of `hay` of the length of
`needle` equals `needle`.  Models `t in ln.lower()` in recompute_search
(main.py line 206). -/
def strContains (hay needle : List Char) : Bool :=
  (List.range (hay.length + 1)).any fun j => (hay.drop j).take needle.length == needle

/-- The for/else loop of recompute_search (main.py lines 212-216): position,
in the match list, of the first entry `li` with `li ≥ sel`, if any. -/
def findAtOrAfter (sel : Int) : List Nat → Option Nat
  | [] => none
  | li :: rest =>
    if sel ≤ (li : Int) then some 0
    else (findAtOrAfter sel rest).map (· + 1)

/-- `recompute_search`, main.py lines 200-216, as a function of the line
buffer, the optional search term and the current selected index
(`st.selected_index()`).  Returns the new `search_matches` and
`match_index` (`-1` is the "none" sentinel).  The `enumerate` loop is
rendered as a filter over the index range; `if not st.search_term` is the
none-or-empty test. -/
def recompute_search (lines : List (List Char)) (term : Option (List Char))
    (selIdx : Int) : List Nat × Int :=
  match term with
  | none => ([], -1)
  | some t =>
    if t = [] then ([], -1)
    else
      let tl := lowerStr t
      let ms := (List.range lines.length).filter
        fun i => strContains (lowerStr (lines.getD i [])) tl
      if ms = [] then (ms, -1)
      else (ms, (((findAtOrAfter selIdx ms).getD 0 : Nat) : Int))

/-- Scanning loop of find_positions (main.py lines 155-160): `low` is the
lowered line, `tl` the lowered term, `n = len(line)`, `lt = len(term)`.
The loop advances `i` by `lt` after a match and by 1 otherwise; the extra
fuel argument makes the recursion structural, and `n + 1` fuel is enough
for every reachable call since the caller guarantees `lt ≥ 1`. -/
def fpLoop (low tl : List Char) (n lt : Nat) : Nat → Nat → List (Nat × Nat)
  | 0, _ => []
  | fuel + 1, i =>
    if i + lt ≤ n then
      if (low.drop i).take lt = tl then
        (i, i + lt) :: fpLoop low tl n lt fuel (i + lt)
      else fpLoop low tl n lt fuel (i + 1)
    else []

/-- `find_positions(line, term)`, main.py lines 150-161: ordered list of
non-overlapping case-insensitive match spans of `term` in `line`;
`if not term` (absent or empty) yields no spans. -/
def find_positions (line : List Char) (term : Option (List Char)) :
    List (Nat × Nat) :=
  match term with
  | none => []
  | some t =>
    if t = [] then []
    else fpLoop (lowerStr line) (lowerStr t) line.length t.length
      (line.length + 1) 0

/-- Per-line drawing decomposition in draw (main.py lines 264-285): the
unmatched segment `line[cur:s]` before each span, the span segment
`line[s:e]`, and the final tail `line[cur:]`. -/
def reconstruct (line : List Char) : Nat → List (Nat × Nat) → List Char
  | cur, [] => line.drop cur
  | cur, (s, e) :: rest =>
    (line.drop cur).take (s - cur) ++ (line.drop s).take (e - s) ++
      reconstruct line e rest

/-- Python `text.split(sep)` for a one-character separator: always one more
piece than separators; splitting the empty text gives `[""]`. -/
def pySplit (c : Char) : List Char → List (List Char)
  | [] => [[]]
  | x :: xs =>
    if x = c then [] :: pySplit c xs
    else
      match pySplit c xs with
      | [] => [[x]]
      | p :: ps => (x :: p) :: ps

/-- CRLF normalisation in read_file (main.py lines 85-86): leftmost
non-overlapping replacement of "\r\n" by "\n". -/
def replaceCRLF : List Char → List Char
  | '\r' :: '\n' :: rest => '\n' :: replaceCRLF rest
  | x :: rest => x :: replaceCRLF rest
  | [] => []

/-- `read_file` (main.py lines 78-95) on the decoded text: CRLF is
normalised, the trailing flag is `text.endswith("\n")`, the text is split
on "\n", and the empty last piece is popped only when the text did NOT end
with a newline.  Byte decoding is out of scope: `raw` is the decoded
text. -/
def read_file (raw : List Char) : List (List Char) × Bool :=
  let text := replaceCRLF raw
  let trailing := text.getLast? == some '\n'
  let ls := pySplit '\n' text
  let ls2 :=
    if ls ≠ [] ∧ ls.getLast? = some [] ∧ trailing = false then ls.dropLast
    else ls
  (ls2, trailing)

/-- `write_file` (main.py lines 97-102): join the lines with "\n" and append
a final newline iff the flag is set. -/
def write_file (lines : List (List Char)) (trailing : Bool) : List Char :=
  List.intercalate ['\n'] lines ++ (if trailing then ['\n'] else [])

/-- The mutable fields of `EditorState` (main.py lines 104-118) that the
dispatch loop touches, plus the status line. -/
structure Session where
  lines : List (List Char)
  trailing_nl : Bool
  top : Int
  sel : Int
  window_h : Int
  modified : Bool
  search_term : Option (List Char)
  search_matches : List Nat
  match_index : Int
  status_msg : String
  status_type : String
  deriving Repr, DecidableEq

/-- `set_status` (main.py lines 146-148). -/
def set_status (st : Session) (msg : String) (tp : String) : Session :=
  { st with status_msg := msg, status_type := tp }

/-- Python truthiness of `st.search_term` (`None` and the empty string are
falsy). -/
def termActive : Option (List Char) → Bool
  | none => false
  | some t => decide (t ≠ [])

/-- Running `recompute_search` on a session stores the fresh match list and
cursor (main.py lines 200-216); the selected index is `st.top + st.sel`. -/
def recompute_on (st : Session) : Session :=
  let r := recompute_search st.lines st.search_term (st.top + st.sel)
  { st with search_matches := r.1, match_index := r.2 }

/-- `goto_search_match` (main.py lines 218-230).  Python `%` on the positive
list length is `Int.emod` and `//` is `Int.fdiv`. -/
def goto_search_match (st : Session) (forward : Bool) : Session :=
  if st.search_matches = [] then set_status st "No matches" "err"
  else
    let mi : Int :=
      if st.match_index = -1 then 0
      else (st.match_index + (if forward then 1 else -1)) %
        (st.search_matches.length : Int)
    let target : Nat := st.search_matches.getD mi.toNat 0
    let half : Int := st.window_h.fdiv 2
    let ntop : Int := max 0 ((target : Int) - half)
    let v := clamp (st.lines.length : Int) st.window_h ⟨ntop, (target : Int) - ntop⟩
    { st with
      match_index := mi
      top := v.top
      sel := v.sel
      status_msg := "Match " ++ toString (mi + 1) ++ "/" ++
        toString st.search_matches.length ++ " at " ++ toString ((target : Int) + 1)
      status_type := "info" }

/-- Python `ans and ans.lower() == "y"` on an optional prompt answer. -/
def confirmYes : Option (List Char) → Bool
  | none => false
  | some a => lowerStr a == ['y']

/-- Python str.strip(): drop whitespace from both ends. -/
def pyStrip (s : List Char) : List Char :=
  ((s.dropWhile Char.isWhitespace).reverse.dropWhile Char.isWhitespace).reverse

/-- User intents of the dispatch loop (main.py lines 384-451), carrying the
prompt answers and external I/O outcomes the handlers consume: `gotoLine`
carries the cancelled / non-numeric / parsed-number prompt result, `edit`
and `search` the optional prompt text, `save` whether the external write
succeeded, `reload` the confirmation answer and the outcome of the
external read.  Quitting and the theme editor do not touch core state. -/
inductive Intent where
  | moveUp : Intent
  | moveDown : Intent
  | pageUp : Intent
  | pageDown : Intent
  | gotoLine : Option (Option Nat) → Intent
  | edit : Option (List Char) → Intent
  | save : Bool → Intent
  | search : Option (List Char) → Intent
  | nextMatch : Intent
  | prevMatch : Intent
  | reload : Option (List Char) → Option (List (List Char) × Bool) → Intent
  deriving Repr, DecidableEq

/-- One pass of the main_curses dispatch loop (main.py lines 384-451) for
the core intents. -/
def step (st : Session) (it : Intent) : Session :=
  match it with
  | .moveUp =>
    let v := move_up ⟨st.top, st.sel⟩
    set_status { st with top := v.top, sel := v.sel } "" "info"
  | .moveDown =>
    let v := move_down (st.lines.length : Int) st.window_h ⟨st.top, st.sel⟩
    set_status { st with top := v.top, sel := v.sel } "" "info"
  | .pageUp =>
    let page : Int := max 1 (st.window_h - 1)
    set_status { st with top := max 0 (st.top - page) } "" "info"
  | .pageDown =>
    let page : Int := max 1 (st.window_h - 1)
    set_status { st with
      top := min (max 0 ((st.lines.length : Int) - st.window_h))
        (st.top + page) } "" "info"
  | .gotoLine none => st
  | .gotoLine (some none) => set_status st "Invalid line" "err"
  | .gotoLine (some (some k)) =>
    let ln : Int := max 0 (min ((k : Int) - 1) (max 0 ((st.lines.length : Int) - 1)))
    let ntop : Int := max 0 (ln - st.window_h.fdiv 2)
    let v := clamp (st.lines.length : Int) st.window_h ⟨ntop, ln - ntop⟩
    set_status { st with top := v.top, sel := v.sel }
      ("Jumped to " ++ toString (ln + 1)) "ok"
  | .edit input =>
    let idx : Int := st.top + st.sel
    if 0 ≤ idx ∧ idx < (st.lines.length : Int) then
      match input with
      | some new =>
        let cur := st.lines.getD idx.toNat []
        if new ≠ cur then
          let st1 := set_status
            { st with lines := st.lines.set idx.toNat new, modified := true }
            "Line updated" "ok"
          if termActive st1.search_term then recompute_on st1 else st1
        else set_status st "Edit cancelled" "info"
      | none => set_status st "Edit cancelled" "info"
    else set_status st "Nothing to edit" "err"
  | .save ok =>
    if ok then set_status { st with modified := false } "Saved" "ok"
    else set_status st "Save error" "err"
  | .search none => set_status st "Search cancelled" "info"
  | .search (some raw) =>
    let t := pyStrip raw
    if t = [] then
      let st1 := recompute_on { st with search_term := none }
      set_status st1 "Search cleared" "info"
    else
      let st1 := recompute_on { st with search_term := some t }
      if st1.search_matches ≠ [] then goto_search_match st1 true
      else set_status st1 ("No matches for " ++ t.asString) "err"
  | .nextMatch => goto_search_match st true
  | .prevMatch => goto_search_match st false
  | .reload confirm result =>
    if st.modified ∧ confirmYes confirm = false then
      set_status st "Reload cancelled" "info"
    else
      match result with
      | some (ls, tr) =>
        let st1 := set_status
          { st with lines := ls, trailing_nl := tr, modified := false }
          "Reloaded" "ok"
        if termActive st1.search_term then recompute_on st1 else st1
      | none => set_status st "Reload error" "err"

lemma clamp_props (L H : Int) (hL : 0 ≤ L) (hH : 1 ≤ H) (v : Viewport) :
    0 ≤ (clamp L H v).top ∧ (clamp L H v).top ≤ max 0 (L - H) ∧
    0 ≤ (clamp L H v).sel ∧ (clamp L H v).sel < H ∧
    (0 < L → (clamp L H v).top + (clamp L H v).sel < L) ∧
    (L = 0 → (clamp L H v).top = 0 ∧ (clamp L H v).sel = 0) := by
  simp only [clamp]
  split_ifs <;> simp_all <;> omega

lemma clamp_pin (L H : Int) (v : Viewport)
    (h1 : 0 ≤ v.top) (h2 : v.top ≤ max 0 (L - H))
    (h3 : 0 ≤ v.sel) (h4 : v.sel < H)
    (h5 : L ≤ v.top + v.sel) (hL : 0 < L) :
    (clamp L H v).top = max 0 ((L - 1) - (H - 1)) ∧
    (clamp L H v).top + (clamp L H v).sel = L - 1 := by
  simp only [clamp]
  split_ifs <;> simp_all <;> omega

lemma clamp_id (L H : Int) (hL : 0 ≤ L) (v : Viewport)
    (h1 : 0 ≤ v.top) (h2 : v.top ≤ max 0 (L - H))
    (h3 : 0 ≤ v.sel) (h4 : v.sel < H)
    (h5 : 0 < L → v.top + v.sel < L)
    (h6 : L = 0 → v.top = 0 ∧ v.sel = 0) :
    clamp L H v = v := by
  obtain ⟨t, s⟩ := v
  simp only [clamp] at *
  split_ifs <;> simp_all [Viewport.mk.injEq] <;> omega

lemma move_down_iter (L H : Int) (hH : 1 ≤ H) :
    ∀ k : Nat, (k : Int) < L →
      0 ≤ ((move_down L H)^[k] ⟨0, 0⟩).top ∧
      0 ≤ ((move_down L H)^[k] ⟨0, 0⟩).sel ∧
      ((move_down L H)^[k] ⟨0, 0⟩).sel < H ∧
      ((move_down L H)^[k] ⟨0, 0⟩).top + ((move_down L H)^[k] ⟨0, 0⟩).sel = (k : Int) := by
  intro k
  induction k with
  | zero =>
    intro hk
    simp only [Function.iterate_zero, id_eq]
    refine ⟨le_refl 0, le_refl 0, by omega, by simp⟩
  | succ k ih =>
    intro hk
    have hk' : (k : Int) < L := by push_cast at hk; omega
    obtain ⟨h1, h2, h3, h4⟩ := ih hk'
    rw [Function.iterate_succ_apply']
    have hkk : ((k : Int) + 1) < L := by omega
    simp only [move_down]
    split_ifs <;> simp_all <;> omega

lemma lowerStr_length (s : List Char) : (lowerStr s).length = s.length := by
  simp [lowerStr]

lemma strContains_iff (hay needle : List Char) :
    strContains hay needle = true ↔
      ∃ j, j + needle.length ≤ hay.length ∧
        (hay.drop j).take needle.length = needle := by
  unfold strContains
  rw [List.any_eq_true]
  constructor
  · rintro ⟨j, hjr, hbeq⟩
    rw [List.mem_range] at hjr
    rw [beq_iff_eq] at hbeq
    refine ⟨j, ?_, hbeq⟩
    have hlen := congrArg List.length hbeq
    simp only [List.length_take, List.length_drop] at hlen
    omega
  · rintro ⟨j, hj, heq⟩
    exact ⟨j, by rw [List.mem_range]; omega, by rw [beq_iff_eq]; exact heq⟩

lemma findAtOrAfter_spec (sel : Int) :
    ∀ ms : List Nat,
      (∀ k, findAtOrAfter sel ms = some k →
         k < ms.length ∧ sel ≤ ((ms.getD k 0 : Nat) : Int) ∧
         ∀ j, j < k → (((ms.getD j 0 : Nat) : Int)) < sel) ∧
      (findAtOrAfter sel ms = none → ∀ li ∈ ms, (li : Int) < sel) := by
  intro ms
  induction ms with
  | nil =>
    constructor
    · intro k hk; simp [findAtOrAfter] at hk
    · intro _ li h; simp at h
  | cons a rest ih =>
    by_cases h : sel ≤ (a : Int)
    · constructor
      · intro k hk
        simp only [findAtOrAfter, if_pos h] at hk
        obtain rfl : (0 : Nat) = k := Option.some.inj hk
        exact ⟨by simp, by simpa using h, fun j hj => absurd hj (by omega)⟩
      · intro hk
        simp only [findAtOrAfter, if_pos h] at hk
        exact absurd hk (by simp)
    · constructor
      · intro k hk
        simp only [findAtOrAfter, if_neg h] at hk
        obtain ⟨k1, hk1, rfl⟩ := Option.map_eq_some'.mp hk
        obtain ⟨hlen, hsel, hbefore⟩ := (ih).1 k1 hk1
        refine ⟨by simp only [List.length_cons]; omega, by simpa using hsel, ?_⟩
        intro j hj
        cases j with
        | zero => simp only [List.getD_cons_zero]; omega
        | succ j1 =>
          simp only [List.getD_cons_succ]
          exact hbefore j1 (by omega)
      · intro hk
        simp only [findAtOrAfter, if_neg h, Option.map_eq_none'] at hk
        intro li hli
        rcases List.mem_cons.mp hli with rfl | hmem
        · omega
        · exact (ih).2 hk li hmem

lemma recompute_search_fst (lines : List (List Char)) (t : List Char)
    (ht : t ≠ []) (selIdx : Int) :
    (recompute_search lines (some t) selIdx).1 =
      (List.range lines.length).filter
        (fun i => strContains (lowerStr (lines.getD i [])) (lowerStr t)) := by
  simp only [recompute_search, if_neg ht]
  split_ifs <;> rfl

lemma recompute_search_snd (lines : List (List Char)) (t : List Char)
    (ht : t ≠ []) (selIdx : Int) :
    (recompute_search lines (some t) selIdx).2 =
      (if (recompute_search lines (some t) selIdx).1 = [] then (-1 : Int)
       else (((findAtOrAfter selIdx
                (recompute_search lines (some t) selIdx).1).getD 0 : Nat) : Int)) := by
  rw [recompute_search_fst lines t ht selIdx]
  simp only [recompute_search, if_neg ht]
  split_ifs <;> rfl

/-- C2: recompute with an absent or empty term yields an empty match list and
the cursor sentinel -1 ("none"); with a nonempty term the match list is
exactly the ascending list of indices of lines that contain the term
case-insensitively as a substring, and the cursor is the position in the
match list of the first match at or after the selected index, wrapping to
position 0 when no match is at or after it, and -1 when no line matches. -/
theorem recompute_search_correct (lines : List (List Char)) (t : List Char)
    (selIdx : Int) (ht : t ≠ []) (ms : List Nat) (mi : Int)
    (heq : recompute_search lines (some t) selIdx = (ms, mi)) :
    (∀ sel0, recompute_search lines none sel0 = ([], -1)) ∧
    (∀ sel0, recompute_search lines (some []) sel0 = ([], -1)) ∧
    (∀ i, i ∈ ms ↔ i < lines.length ∧
        ∃ j, j + t.length ≤ (lines.getD i []).length ∧
          ((lowerStr (lines.getD i [])).drop j).take t.length = lowerStr t) ∧
    ms.Sorted (· < ·) ∧
    (ms = [] → mi = -1) ∧
    (ms ≠ [] → ∃ k : Nat, mi = (k : Int) ∧ k < ms.length ∧
      ((∃ li ∈ ms, selIdx ≤ (li : Int)) →
        selIdx ≤ ((ms.getD k 0 : Nat) : Int) ∧
        ∀ j, j < k → ((ms.getD j 0 : Nat) : Int) < selIdx) ∧
      ((∀ li ∈ ms, (li : Int) < selIdx) → k = 0)) := by
  have hms : ms = (List.range lines.length).filter
      (fun i => strContains (lowerStr (lines.getD i [])) (lowerStr t)) := by
    rw [← recompute_search_fst lines t ht selIdx, heq]
  have hmi : mi = (if ms = [] then (-1 : Int)
      else (((findAtOrAfter selIdx ms).getD 0 : Nat) : Int)) := by
    have h2 := recompute_search_snd lines t ht selIdx
    rw [heq] at h2
    exact h2
  refine ⟨fun sel0 => rfl, fun sel0 => rfl, ?_, ?_, ?_, ?_⟩
  · intro i
    rw [hms, List.mem_filter, List.mem_range, strContains_iff]
    simp only [lowerStr_length]
  · rw [hms]
    exact List.Pairwise.filter _ (List.pairwise_lt_range _)
  · intro h
    rw [hmi, if_pos h]
  · intro hne
    rw [hmi, if_neg hne]
    cases hfi : findAtOrAfter selIdx ms with
    | none =>
      refine ⟨0, by simp [hfi], List.length_pos.mpr hne, ?_, fun _ => rfl⟩
      rintro ⟨li, hli, hsel⟩
      have := (findAtOrAfter_spec selIdx ms).2 hfi li hli
      omega
    | some k =>
      obtain ⟨hlen, hsel, hbef⟩ := (findAtOrAfter_spec selIdx ms).1 k hfi
      refine ⟨k, by simp [hfi], hlen, fun _ => ⟨hsel, hbef⟩, ?_⟩
      intro hall
      have hm : ms.getD k 0 ∈ ms := by
        rw [List.getD_eq_getElem _ _ hlen]
        exact List.getElem_mem hlen
      have := hall _ hm
      omega

lemma fpLoop_spec (low tl : List Char) (n lt : Nat) (hlt : 0 < lt) :
    ∀ fuel i, n + 1 - i ≤ fuel →
      (∀ p ∈ fpLoop low tl n lt fuel i,
         i ≤ p.1 ∧ p.2 = p.1 + lt ∧ p.2 ≤ n ∧ (low.drop p.1).take lt = tl) ∧
      (fpLoop low tl n lt fuel i).Pairwise (fun a b => a.2 ≤ b.1) ∧
      (∀ j, i ≤ j → j + lt ≤ n → (low.drop j).take lt = tl →
         ∃ p ∈ fpLoop low tl n lt fuel i, p.1 ≤ j ∧ j < p.2) := by
  intro fuel
  induction fuel with
  | zero =>
    intro i hi
    refine ⟨by simp [fpLoop], by simp [fpLoop], ?_⟩
    intro j hij hjn _
    omega
  | succ fuel ih =>
    intro i hi
    by_cases hcond : i + lt ≤ n
    · by_cases hmatch : (low.drop i).take lt = tl
      · obtain ⟨hall, hpw, hcomp⟩ := ih (i + lt) (by omega)
        rw [fpLoop, if_pos hcond, if_pos hmatch]
        refine ⟨?_, ?_, ?_⟩
        · intro p hp
          rcases List.mem_cons.mp hp with rfl | hp1
          · exact ⟨le_refl i, rfl, hcond, hmatch⟩
          · obtain ⟨h1, h2, h3, h4⟩ := hall p hp1
            exact ⟨by omega, h2, h3, h4⟩
        · rw [List.pairwise_cons]
          exact ⟨fun p hp => (hall p hp).1, hpw⟩
        · intro j hij hjn hjm
          by_cases hji : j < i + lt
          · exact ⟨(i, i + lt), List.mem_cons_self _ _, hij, hji⟩
          · obtain ⟨p, hp, h1, h2⟩ := hcomp j (by omega) hjn hjm
            exact ⟨p, List.mem_cons_of_mem _ hp, h1, h2⟩
      · obtain ⟨hall, hpw, hcomp⟩ := ih (i + 1) (by omega)
        rw [fpLoop, if_pos hcond, if_neg hmatch]
        refine ⟨?_, hpw, ?_⟩
        · intro p hp
          obtain ⟨h1, h2, h3, h4⟩ := hall p hp
          exact ⟨by omega, h2, h3, h4⟩
        · intro j hij hjn hjm
          have hij1 : i + 1 ≤ j := by
            rcases Nat.eq_or_lt_of_le hij with rfl | h
            · exact absurd hjm hmatch
            · omega
          exact hcomp j hij1 hjn hjm
    · rw [fpLoop, if_neg hcond]
      refine ⟨by simp, by simp, ?_⟩
      intro j hij hjn _
      omega

lemma reconstruct_eq_drop (line : List Char) :
    ∀ (spans : List (Nat × Nat)) (cur : Nat),
      (∀ p ∈ spans, cur ≤ p.1 ∧ p.1 ≤ p.2 ∧ p.2 ≤ line.length) →
      spans.Pairwise (fun a b => a.2 ≤ b.1) →
      reconstruct line cur spans = line.drop cur := by
  intro spans
  induction spans with
  | nil => intro cur _ _; rfl
  | cons p rest ih =>
    obtain ⟨s, e⟩ := p
    intro cur hb hpw
    obtain ⟨hcs, hse, hel⟩ := hb (s, e) (List.mem_cons_self _ _)
    rw [List.pairwise_cons] at hpw
    obtain ⟨hfirst, hpw1⟩ := hpw
    have hrest : ∀ q ∈ rest, e ≤ q.1 ∧ q.1 ≤ q.2 ∧ q.2 ≤ line.length := by
      intro q hq
      exact ⟨hfirst q hq, (hb q (List.mem_cons_of_mem _ hq)).2⟩
    rw [reconstruct, ih e hrest hpw1]
    have h2 : line.drop e = (line.drop s).drop (e - s) := by
      rw [List.drop_drop]
      congr 1
      omega
    have h1 : line.drop s = (line.drop cur).drop (s - cur) := by
      rw [List.drop_drop]
      congr 1
      omega
    rw [h2, h1, List.append_assoc, List.take_append_drop, List.take_append_drop]

lemma goto_step_match_index (st : Session) (fwd : Bool)
    (h0 : st.search_matches ≠ []) (h1 : st.match_index ≠ -1) :
    (goto_search_match st fwd).match_index =
      (st.match_index + (if fwd then 1 else -1)) %
        (st.search_matches.length : Int) ∧
    (goto_search_match st fwd).search_matches = st.search_matches := by
  simp only [goto_search_match, if_neg h0, if_neg h1]
  exact ⟨trivial, trivial⟩

lemma goto_step_from_none (st : Session) (fwd : Bool)
    (h0 : st.search_matches ≠ []) (h1 : st.match_index = -1) :
    (goto_search_match st fwd).match_index = 0 ∧
    (goto_search_match st fwd).search_matches = st.search_matches := by
  simp only [goto_search_match, if_neg h0, if_pos h1]
  exact ⟨trivial, trivial⟩

lemma goto_iter_match_index (st : Session) (h0 : st.search_matches ≠ [])
    (hge : 0 ≤ st.match_index)
    (hlt : st.match_index < (st.search_matches.length : Int)) :
    ∀ k : Nat,
      ((fun s => goto_search_match s true)^[k] st).match_index =
        (st.match_index + (k : Int)) % (st.search_matches.length : Int) ∧
      ((fun s => goto_search_match s true)^[k] st).search_matches =
        st.search_matches := by
  have hlen : 0 < (st.search_matches.length : Int) := by omega
  intro k
  induction k with
  | zero =>
    simp only [Function.iterate_zero, id_eq, Nat.cast_zero, add_zero]
    exact ⟨(Int.emod_eq_of_lt hge hlt).symm, trivial⟩
  | succ k ih =>
    obtain ⟨ih1, ih2⟩ := ih
    rw [Function.iterate_succ_apply']
    have hne : ((fun s => goto_search_match s true)^[k] st).search_matches ≠ [] := by
      rw [ih2]; exact h0
    have hmi : ((fun s => goto_search_match s true)^[k] st).match_index ≠ -1 := by
      rw [ih1]
      have := Int.emod_nonneg (st.match_index + (k : Int))
        (show (st.search_matches.length : Int) ≠ 0 by omega)
      omega
    obtain ⟨g1, g2⟩ := goto_step_match_index _ true hne hmi
    refine ⟨?_, by rw [g2, ih2]⟩
    rw [g1, ih1, ih2, if_pos rfl, Int.emod_add_emod]
    congr 1
    push_cast
    ring

lemma goto_lines (st : Session) (fwd : Bool) :
    (goto_search_match st fwd).lines = st.lines := by
  simp only [goto_search_match]
  split_ifs <;> rfl

lemma step_lines_nonedit (st : Session) (it : Intent)
    (hnr : ∀ c r, it ≠ .reload c r) (hne : ∀ inp, it ≠ .edit inp) :
    (step st it).lines = st.lines := by
  cases it with
  | moveUp => rfl
  | moveDown => rfl
  | pageUp => rfl
  | pageDown => rfl
  | gotoLine g =>
    cases g with
    | none => rfl
    | some go => cases go <;> rfl
  | edit inp => exact absurd rfl (hne inp)
  | save ok => cases ok <;> rfl
  | search t =>
    cases t with
    | none => rfl
    | some raw =>
      simp only [step]
      split_ifs
      · rfl
      · exact goto_lines _ true
      · rfl
  | nextMatch => exact goto_lines st true
  | prevMatch => exact goto_lines st false
  | reload c r => exact absurd rfl (hnr c r)

lemma step_edit_lines (st : Session) (inp : Option (List Char)) :
    (step st (.edit inp)).lines.length = st.lines.length := by
  cases inp with
  | none =>
    simp only [step]
    split_ifs <;> rfl
  | some new =>
    simp only [step]
    split_ifs <;> simp [recompute_on, set_status, List.length_set]

lemma step_lines_length (st : Session) (it : Intent)
    (hnr : ∀ c r, it ≠ .reload c r) :
    (step st it).lines.length = st.lines.length := by
  by_cases he : ∃ inp, it = .edit inp
  · obtain ⟨inp, rfl⟩ := he
    exact step_edit_lines st inp
  · have hne : ∀ inp, it ≠ .edit inp := fun inp h => he ⟨inp, h⟩
    rw [step_lines_nonedit st it hnr hne]

lemma foldl_step_length (sts : List Intent) :
    ∀ st : Session, (∀ x ∈ sts, ∀ c r, x ≠ .reload c r) →
      (sts.foldl step st).lines.length = st.lines.length := by
  induction sts with
  | nil => intro st _; rfl
  | cons it rest ih =>
    intro st hall
    rw [List.foldl_cons,
      ih (step st it) (fun x hx => hall x (List.mem_cons_of_mem _ hx))]
    exact step_lines_length st it (hall it (List.mem_cons_self _ _))

/-- C1: for every buffer length L ≥ 0, window height H ≥ 1 and starting top
and cursor offset, one call to clamp establishes 0 ≤ top ≤ max 0 (L−H),
0 ≤ cursor_offset < H, top + cursor_offset < L when L > 0, and top =
cursor_offset = 0 when L = 0; and when an in-range selection would exceed
the buffer, the selection is pinned to the last line with
top = max 0 (last − (H−1)). -/
theorem clamp_establishes_invariants (L H top0 sel0 : Int)
    (hL : 0 ≤ L) (hH : 1 ≤ H) :
    (0 ≤ (clamp L H ⟨top0, sel0⟩).top ∧
      (clamp L H ⟨top0, sel0⟩).top ≤ max 0 (L - H)) ∧
    (0 ≤ (clamp L H ⟨top0, sel0⟩).sel ∧ (clamp L H ⟨top0, sel0⟩).sel < H) ∧
    (0 < L →
      (clamp L H ⟨top0, sel0⟩).top + (clamp L H ⟨top0, sel0⟩).sel < L) ∧
    (L = 0 →
      (clamp L H ⟨top0, sel0⟩).top = 0 ∧ (clamp L H ⟨top0, sel0⟩).sel = 0) ∧
    (0 ≤ top0 → top0 ≤ max 0 (L - H) → 0 ≤ sel0 → sel0 < H →
      L ≤ top0 + sel0 → 0 < L →
      (clamp L H ⟨top0, sel0⟩).top = max 0 ((L - 1) - (H - 1)) ∧
      (clamp L H ⟨top0, sel0⟩).top + (clamp L H ⟨top0, sel0⟩).sel = L - 1) := by
  obtain ⟨h1, h2, h3, h4, h5, h6⟩ := clamp_props L H hL hH ⟨top0, sel0⟩
  refine ⟨⟨h1, h2⟩, ⟨h3, h4⟩, h5, h6, ?_⟩
  intro p1 p2 p3 p4 p5 p6
  exact clamp_pin L H ⟨top0, sel0⟩ p1 p2 p3 p4 p5 p6

/-- Witness for C1 at L = 2, H = 5, top = 0, sel = 4 (selection exceeds the
buffer, so it is pinned to the last line). -/
theorem clamp_establishes_invariants_witness :
    (0 : Int) ≤ 2 ∧ (1 : Int) ≤ 5 ∧
    ((0 ≤ (clamp 2 5 ⟨0, 4⟩).top ∧ (clamp 2 5 ⟨0, 4⟩).top ≤ max 0 (2 - 5)) ∧
     (0 ≤ (clamp 2 5 ⟨0, 4⟩).sel ∧ (clamp 2 5 ⟨0, 4⟩).sel < 5) ∧
     ((0 : Int) < 2 → (clamp 2 5 ⟨0, 4⟩).top + (clamp 2 5 ⟨0, 4⟩).sel < 2) ∧
     ((2 : Int) = 0 → (clamp 2 5 ⟨0, 4⟩).top = 0 ∧ (clamp 2 5 ⟨0, 4⟩).sel = 0) ∧
     ((0 : Int) ≤ 0 → (0 : Int) ≤ max 0 (2 - 5) → (0 : Int) ≤ 4 → (4 : Int) < 5 →
      (2 : Int) ≤ 0 + 4 → (0 : Int) < 2 →
      (clamp 2 5 ⟨0, 4⟩).top = max 0 ((2 - 1) - (5 - 1)) ∧
      (clamp 2 5 ⟨0, 4⟩).top + (clamp 2 5 ⟨0, 4⟩).sel = 2 - 1)) :=
  ⟨by decide, by decide,
    clamp_establishes_invariants 2 5 0 4 (by decide) (by decide)⟩

/-- C9: clamp is idempotent: for every buffer length L ≥ 0, window height
H ≥ 1 and starting state, a second clamp right after the first changes
nothing. -/
theorem clamp_idempotent (L H : Int) (v : Viewport)
    (hL : 0 ≤ L) (hH : 1 ≤ H) :
    clamp L H (clamp L H v) = clamp L H v := by
  obtain ⟨h1, h2, h3, h4, h5, h6⟩ := clamp_props L H hL hH v
  exact clamp_id L H hL (clamp L H v) h1 h2 h3 h4 h5 h6

/-- Witness for C9 at L = 7, H = 3, top = 9, sel = -2. -/
theorem clamp_idempotent_witness :
    (0 : Int) ≤ 7 ∧ (1 : Int) ≤ 3 ∧
    clamp 7 3 (clamp 7 3 ⟨9, -2⟩) = clamp 7 3 ⟨9, -2⟩ :=
  ⟨by decide, by decide, clamp_idempotent 7 3 ⟨9, -2⟩ (by decide) (by decide)⟩

/-- C5: moving down past the last line or up above the first is a no-op; a
move within the window changes only the cursor offset; a move at the window
edge shifts top by one and keeps the offset at the boundary; and from
top = 0, sel = 0 over a buffer of L lines with 1 ≤ H < L, k forward moves
select line k for every k < L, visiting lines 0..L−1 in ascending order. -/
theorem move_selection_correct (L H : Int) (v : Viewport) :
    (L ≤ v.top + v.sel + 1 → move_down L H v = v) ∧
    (0 ≤ v.top → 0 ≤ v.sel → v.top + v.sel = 0 → move_up v = v) ∧
    (v.top + v.sel + 1 < L → v.sel + 1 < H →
      move_down L H v = ⟨v.top, v.sel + 1⟩) ∧
    (v.top + v.sel + 1 < L → v.sel + 1 = H →
      move_down L H v = ⟨v.top + 1, v.sel⟩) ∧
    (0 < v.sel → move_up v = ⟨v.top, v.sel - 1⟩) ∧
    (v.sel = 0 → 0 < v.top → move_up v = ⟨v.top - 1, v.sel⟩) ∧
    (1 ≤ H → H < L → ∀ k : Nat, (k : Int) < L →
      ((move_down L H)^[k] ⟨0, 0⟩).top + ((move_down L H)^[k] ⟨0, 0⟩).sel
        = (k : Int)) := by
  refine ⟨?_, ?_, ?_, ?_, ?_, ?_, ?_⟩
  · intro h
    simp only [move_down]
    split_ifs <;>
      first
      | rfl
      | (simp only [Viewport.mk.injEq]; omega)
      | (exfalso; omega)
  · intro h1 h2 h3
    simp only [move_up]
    split_ifs <;>
      first
      | rfl
      | (simp only [Viewport.mk.injEq]; omega)
      | (exfalso; omega)
  · intro h1 h2
    simp only [move_down]
    split_ifs <;>
      first
      | rfl
      | (simp only [Viewport.mk.injEq]; omega)
      | (exfalso; omega)
  · intro h1 h2
    simp only [move_down]
    split_ifs <;>
      first
      | rfl
      | (simp only [Viewport.mk.injEq]; omega)
      | (exfalso; omega)
  · intro h
    simp only [move_up]
    split_ifs <;>
      first
      | rfl
      | (simp only [Viewport.mk.injEq]; omega)
      | (exfalso; omega)
  · intro h1 h2
    simp only [move_up]
    split_ifs <;>
      first
      | rfl
      | (simp only [Viewport.mk.injEq]; omega)
      | (exfalso; omega)
  · intro hH hHL k hk
    exact (move_down_iter L H hH k hk).2.2.2

/-- Witness for C5 at L = 4, H = 2, v = (1, 1): the selection sits at the
window edge, so a forward move scrolls; and 3 forward moves from the start
select line 3. -/
theorem move_selection_correct_witness :
    ((4 : Int) ≤ 1 + 1 + 1 → move_down 4 2 ⟨1, 1⟩ = ⟨1, 1⟩) ∧
    ((0 : Int) ≤ 1 → (0 : Int) ≤ 1 → (1 : Int) + 1 = 0 → move_up ⟨1, 1⟩ = ⟨1, 1⟩) ∧
    ((1 : Int) + 1 + 1 < 4 → (1 : Int) + 1 < 2 → move_down 4 2 ⟨1, 1⟩ = ⟨1, 1 + 1⟩) ∧
    ((1 : Int) + 1 + 1 < 4 → (1 : Int) + 1 = 2 → move_down 4 2 ⟨1, 1⟩ = ⟨1 + 1, 1⟩) ∧
    ((0 : Int) < 1 → move_up ⟨1, 1⟩ = ⟨1, 1 - 1⟩) ∧
    ((1 : Int) = 0 → (0 : Int) < 1 → move_up ⟨1, 1⟩ = ⟨1 - 1, 1⟩) ∧
    ((1 : Int) ≤ 2 → (2 : Int) < 4 → ∀ k : Nat, (k : Int) < 4 →
      ((move_down 4 2)^[k] ⟨0, 0⟩).top + ((move_down 4 2)^[k] ⟨0, 0⟩).sel
        = (k : Int)) :=
  move_selection_correct 4 2 ⟨1, 1⟩

/-- C4: find_positions returns the left-to-right list of half-open spans of
case-insensitive occurrences of the term, each of the term's length and in
bounds; spans do not overlap; the greedy scan is complete (every
occurrence start falls inside some span, because the scan resumes at the
end of each match); an empty or absent term yields no spans; and on line
"aaaa" with term "aa" the spans are exactly [(0,2), (2,4)]. -/
theorem find_positions_greedy (line t : List Char) :
    find_positions line none = [] ∧
    find_positions line (some []) = [] ∧
    (∀ p ∈ find_positions line (some t),
      p.2 = p.1 + t.length ∧ p.2 ≤ line.length ∧
      ((lowerStr line).drop p.1).take t.length = lowerStr t) ∧
    ((find_positions line (some t)).Pairwise fun a b => a.2 ≤ b.1) ∧
    (t ≠ [] → ∀ j, j + t.length ≤ line.length →
      ((lowerStr line).drop j).take t.length = lowerStr t →
      ∃ p ∈ find_positions line (some t), p.1 ≤ j ∧ j < p.2) ∧
    find_positions "aaaa".toList (some "aa".toList) = [(0, 2), (2, 4)] := by
  by_cases ht : t = []
  · subst ht
    refine ⟨rfl, by simp [find_positions], by simp [find_positions],
      by simp [find_positions], fun h => absurd rfl h, by decide⟩
  · have hlt : 0 < t.length := List.length_pos.mpr ht
    have hfp : find_positions line (some t) =
        fpLoop (lowerStr line) (lowerStr t) line.length t.length
          (line.length + 1) 0 := by
      simp [find_positions, ht]
    obtain ⟨hall, hpw, hcomp⟩ :=
      fpLoop_spec (lowerStr line) (lowerStr t) line.length t.length hlt
        (line.length + 1) 0 (by omega)
    refine ⟨rfl, by simp [find_positions], ?_, ?_, ?_, by decide⟩
    · intro p hp
      rw [hfp] at hp
      obtain ⟨_, h2, h3, h4⟩ := hall p hp
      exact ⟨h2, h3, h4⟩
    · rw [hfp]
      exact hpw
    · intro _ j hjn hjm
      rw [hfp]
      exact hcomp j (Nat.zero_le j) hjn hjm

/-- Witness for C4 on line "xAax" and term "aa" (one span (1,3)). -/
theorem find_positions_greedy_witness :
    (∀ p ∈ find_positions "xAax".toList (some "aa".toList),
      p.2 = p.1 + "aa".toList.length ∧ p.2 ≤ "xAax".toList.length ∧
      ((lowerStr "xAax".toList).drop p.1).take "aa".toList.length =
        lowerStr "aa".toList) ∧
    ("aa".toList ≠ [] → ∀ j, j + "aa".toList.length ≤ "xAax".toList.length →
      ((lowerStr "xAax".toList).drop j).take "aa".toList.length =
        lowerStr "aa".toList →
      ∃ p ∈ find_positions "xAax".toList (some "aa".toList),
        p.1 ≤ j ∧ j < p.2) ∧
    find_positions "aaaa".toList (some "aa".toList) = [(0, 2), (2, 4)] := by
  obtain ⟨_, _, h3, _, h5, h6⟩ := find_positions_greedy "xAax".toList "aa".toList
  exact ⟨h3, h5, h6⟩

/-- C10: the spans of find_positions are non-overlapping, ascending and
within the line, so concatenating, span by span in order, the unmatched
segment before the span and the span's segment, followed by the tail after
the last span, reconstructs the line exactly. -/
theorem spans_reconstruct (line : List Char) (term : Option (List Char)) :
    (∀ p ∈ find_positions line term, p.1 ≤ p.2 ∧ p.2 ≤ line.length) ∧
    ((find_positions line term).Pairwise fun a b => a.2 ≤ b.1) ∧
    reconstruct line 0 (find_positions line term) = line := by
  have hb : ∀ p ∈ find_positions line term, p.1 ≤ p.2 ∧ p.2 ≤ line.length := by
    cases term with
    | none => simp [find_positions]
    | some t =>
      by_cases ht : t = []
      · subst ht; simp [find_positions]
      · have hlt : 0 < t.length := List.length_pos.mpr ht
        have hfp : find_positions line (some t) =
            fpLoop (lowerStr line) (lowerStr t) line.length t.length
              (line.length + 1) 0 := by
          simp [find_positions, ht]
        obtain ⟨hall, _, _⟩ :=
          fpLoop_spec (lowerStr line) (lowerStr t) line.length t.length hlt
            (line.length + 1) 0 (by omega)
        intro p hp
        rw [hfp] at hp
        obtain ⟨_, h2, h3, _⟩ := hall p hp
        omega
  have hpw : (find_positions line term).Pairwise fun a b => a.2 ≤ b.1 := by
    cases term with
    | none => simp [find_positions]
    | some t =>
      by_cases ht : t = []
      · subst ht; simp [find_positions]
      · have hlt : 0 < t.length := List.length_pos.mpr ht
        have hfp : find_positions line (some t) =
            fpLoop (lowerStr line) (lowerStr t) line.length t.length
              (line.length + 1) 0 := by
          simp [find_positions, ht]
        obtain ⟨_, hpw0, _⟩ :=
          fpLoop_spec (lowerStr line) (lowerStr t) line.length t.length hlt
            (line.length + 1) 0 (by omega)
        rw [hfp]
        exact hpw0
  refine ⟨hb, hpw, ?_⟩
  have := reconstruct_eq_drop line (find_positions line term) 0
    (fun p hp => ⟨Nat.zero_le _, hb p hp⟩) hpw
  simpa using this

/-- C6 evidence: loading the LF-terminated content "a\n" keeps the empty
final piece while the trailing flag is also set, so saving it back yields
"a\n\n", not the original content: the loader/writer round trip fails on
every content that ends with a newline. -/
theorem read_write_roundtrip_bug :
    read_file ['a', '\n'] = ([['a'], []], true) ∧
    write_file (read_file ['a', '\n']).1 (read_file ['a', '\n']).2 =
      ['a', '\n', '\n'] ∧
    write_file (read_file ['a', '\n']).1 (read_file ['a', '\n']).2 ≠
      ['a', '\n'] := by
  refine ⟨by decide, by decide, by decide⟩

/-- C7: save on success only clears the modified flag and sets the status;
on failure everything except the status line is unchanged: the buffer,
trailing-newline flag, search state and the modified flag are preserved,
and the buffer is never partially modified. -/
theorem save_preserves_buffer (st : Session) :
    (step st (.save true)).lines = st.lines ∧
    (step st (.save true)).trailing_nl = st.trailing_nl ∧
    (step st (.save true)).modified = false ∧
    (step st (.save true)).status_type = "ok" ∧
    step st (.save false) = set_status st "Save error" "err" ∧
    (step st (.save false)).lines = st.lines ∧
    (step st (.save false)).trailing_nl = st.trailing_nl ∧
    (step st (.save false)).modified = st.modified ∧
    (step st (.save false)).search_term = st.search_term ∧
    (step st (.save false)).search_matches = st.search_matches := by
  refine ⟨rfl, rfl, rfl, rfl, rfl, rfl, rfl, rfl, rfl, rfl⟩

/-- C3: advancing with an empty match list only sets the status message;
advancing from the "none" cursor (-1) selects match-list position 0;
otherwise the cursor moves by ±1 modulo the number of matches and the
result is always in [0, number of matches); consequently, from any valid
cursor position, N forward advances (N = number of matches) return to the
original match position, and one backward advance undoes one forward
advance. -/
theorem advance_cyclic (st : Session) (fwd : Bool) :
    (st.search_matches = [] →
      goto_search_match st fwd = set_status st "No matches" "err") ∧
    (st.search_matches ≠ [] → st.match_index = -1 →
      (goto_search_match st fwd).match_index = 0) ∧
    (st.search_matches ≠ [] → st.match_index ≠ -1 →
      (goto_search_match st fwd).match_index =
        (st.match_index + (if fwd then 1 else -1)) %
          (st.search_matches.length : Int) ∧
      0 ≤ (goto_search_match st fwd).match_index ∧
      (goto_search_match st fwd).match_index <
        (st.search_matches.length : Int)) ∧
    (0 ≤ st.match_index →
      st.match_index < (st.search_matches.length : Int) →
      ((fun s => goto_search_match s true)^[st.search_matches.length]
          st).match_index = st.match_index ∧
      (goto_search_match (goto_search_match st true) false).match_index
        = st.match_index) := by
  refine ⟨?_, ?_, ?_, ?_⟩
  · intro h0
    simp only [goto_search_match, if_pos h0]
  · intro h0 h1
    exact (goto_step_from_none st fwd h0 h1).1
  · intro h0 h1
    have hlen : 0 < (st.search_matches.length : Int) := by
      have := List.length_pos.mpr h0
      omega
    obtain ⟨g1, g2⟩ := goto_step_match_index st fwd h0 h1
    refine ⟨g1, ?_, ?_⟩
    · rw [g1]
      exact Int.emod_nonneg _ (by omega)
    · rw [g1]
      exact Int.emod_lt_of_pos _ hlen
  · intro hge hlt
    have h0 : st.search_matches ≠ [] := by
      intro h
      rw [h] at hlt
      simp at hlt
      omega
    have hlen : 0 < (st.search_matches.length : Int) := by
      have := List.length_pos.mpr h0
      omega
    constructor
    · have hit := (goto_iter_match_index st h0 hge hlt
        st.search_matches.length).1
      rw [hit, Int.add_emod_self]
      exact Int.emod_eq_of_lt hge hlt
    · have h1 : st.match_index ≠ -1 := by omega
      obtain ⟨g1, g2⟩ := goto_step_match_index st true h0 h1
      have h0b : (goto_search_match st true).search_matches ≠ [] := by
        rw [g2]
        exact h0
      have h1b : (goto_search_match st true).match_index ≠ -1 := by
        rw [g1]
        have := Int.emod_nonneg
          (st.match_index + (if true then 1 else (-1 : Int)))
          (show (st.search_matches.length : Int) ≠ 0 by omega)
        omega
      obtain ⟨g3, g4⟩ := goto_step_match_index _ false h0b h1b
      rw [g3, g2, g1, if_pos rfl]
      have hneg : ((if false then 1 else (-1 : Int))) = -1 := by
        simp
      rw [hneg, Int.emod_add_emod]
      have harg : st.match_index + 1 + -1 = st.match_index := by ring
      rw [harg]
      exact Int.emod_eq_of_lt hge hlt

/-- Witness for C3 on a session with matches [0, 2, 5] and cursor 1. -/
theorem advance_cyclic_witness :
    (0 : Int) ≤ 1 ∧ (1 : Int) < (([0, 2, 5] : List Nat).length : Int) ∧
    (((fun s => goto_search_match s true)^[([0, 2, 5] : List Nat).length]
        { lines := [['a'], ['b'], ['a'], ['c'], ['d'], ['a']]
          trailing_nl := true
          top := 0
          sel := 0
          window_h := 3
          modified := false
          search_term := some ['a']
          search_matches := [0, 2, 5]
          match_index := 1
          status_msg := ""
          status_type := "info" }).match_index = 1 ∧
      (goto_search_match (goto_search_match
        { lines := [['a'], ['b'], ['a'], ['c'], ['d'], ['a']]
          trailing_nl := true
          top := 0
          sel := 0
          window_h := 3
          modified := false
          search_term := some ['a']
          search_matches := [0, 2, 5]
          match_index := 1
          status_msg := ""
          status_type := "info" } true) false).match_index = 1) := by
  refine ⟨by decide, by decide, ?_⟩
  exact (advance_cyclic
    { lines := [['a'], ['b'], ['a'], ['c'], ['d'], ['a']]
      trailing_nl := true
      top := 0
      sel := 0
      window_h := 3
      modified := false
      search_term := some ['a']
      search_matches := [0, 2, 5]
      match_index := 1
      status_msg := ""
      status_type := "info" } true).2.2.2 (by decide) (by decide)

/-- Witness for C2 on the spec scenario: buffer ["foo bar", "baz foo",
"qux"], term "foo", selected index 1: matches [0, 1], cursor at position
1. -/
theorem recompute_search_correct_witness :
    ("foo".toList ≠ ([] : List Char)) ∧
    recompute_search ["foo bar".toList, "baz foo".toList, "qux".toList]
      (some "foo".toList) 1 = ([0, 1], 1) ∧
    ([0, 1] : List Nat).Sorted (· < ·) := by
  have h := recompute_search_correct
    ["foo bar".toList, "baz foo".toList, "qux".toList] "foo".toList 1
    (by decide) [0, 1] 1 (by decide)
  exact ⟨by decide, by decide, h.2.2.2.1⟩

/-- C8: the line count is invariant across edits: an edit replaces exactly
the selected line, in place, and only when the new text differs from the
old (also setting the modified flag and recomputing the search index over
the edited buffer when a term is active); every non-edit, non-reload
intent leaves the buffer untouched; and any sequence of non-reload intents
keeps the line count constant. -/
theorem step_preserves_line_count (st : Session) (it : Intent) :
    ((∀ c r, it ≠ .reload c r) →
      (step st it).lines.length = st.lines.length) ∧
    ((∀ c r, it ≠ .reload c r) → (∀ inp, it ≠ .edit inp) →
      (step st it).lines = st.lines) ∧
    (∀ new, 0 ≤ st.top + st.sel →
      st.top + st.sel < (st.lines.length : Int) →
      new ≠ st.lines.getD (st.top + st.sel).toNat [] →
      (step st (.edit (some new))).lines =
        st.lines.set (st.top + st.sel).toNat new ∧
      (step st (.edit (some new))).modified = true ∧
      (termActive st.search_term = true →
        (step st (.edit (some new))).search_matches =
          (recompute_search (st.lines.set (st.top + st.sel).toNat new)
            st.search_term (st.top + st.sel)).1 ∧
        (step st (.edit (some new))).match_index =
          (recompute_search (st.lines.set (st.top + st.sel).toNat new)
            st.search_term (st.top + st.sel)).2)) ∧
    (∀ new, new = st.lines.getD (st.top + st.sel).toNat [] →
      (step st (.edit (some new))).lines = st.lines) ∧
    (∀ sts : List Intent, (∀ x ∈ sts, ∀ c r, x ≠ .reload c r) →
      (sts.foldl step st).lines.length = st.lines.length) := by
  refine ⟨step_lines_length st it, step_lines_nonedit st it, ?_, ?_, ?_⟩
  · intro new h1 h2 h3
    have hcond : 0 ≤ st.top + st.sel ∧
        st.top + st.sel < (st.lines.length : Int) := ⟨h1, h2⟩
    simp only [step, set_status, if_pos hcond, if_pos h3, recompute_on]
    by_cases htA : termActive st.search_term = true
    · simp only [htA, if_true]
      exact ⟨trivial, trivial, fun _ => ⟨trivial, trivial⟩⟩
    · simp [eq_false_of_ne_true htA]
  · intro new h4
    simp only [step, set_status]
    split_ifs with hin hne htA
    · exact absurd h4 hne
    · exact absurd h4 hne
    · rfl
    · rfl
  · intro sts hall
    exact foldl_step_length sts st hall

/-- Witness for C8: a forward move on a two-line session keeps the line
count at 2. -/
theorem step_preserves_line_count_witness :
    (step
      { lines := [['a'], ['b']]
        trailing_nl := true
        top := 0
        sel := 0
        window_h := 2
        modified := false
        search_term := none
        search_matches := []
        match_index := -1
        status_msg := ""
        status_type := "info" } Intent.moveDown).lines.length = 2 := by
  have h := (step_preserves_line_count
    { lines := [['a'], ['b']]
      trailing_nl := true
      top := 0
      sel := 0
      window_h := 2
      modified := false
      search_term := none
      search_matches := []
      match_index := -1
      status_msg := ""
      status_type := "info" } Intent.moveDown).1
    (fun c r h => Intent.noConfusion h)
  exact h.trans rfl

/-- Witness for C10 on line "abcabc" with term "bc". -/
theorem spans_reconstruct_witness :
    reconstruct "abcabc".toList 0
      (find_positions "abcabc".toList (some "bc".toList)) = "abcabc".toList :=
  (spans_reconstruct "abcabc".toList (some "bc".toList)).2.2

end DamEdit
